import Mathlib

/-!
Verification development for the AurumTrack market dashboard (src/main.js).

The in-scope core of the program is embedded shallowly:
* the 15:30-IST anchor search `findAnchor1530` over a (timestamps, closes)
  time series,
* the chart-provider processing `processUSD` / `processBees` with the
  previous-close field-precedence resolution,
* the gap-prediction computation of `renderGap` with the regression models,
* the NSE calendar authority (`nextDay`, `getDay`, `isNseHoliday`,
  `getNextNseDay`, `isTomorrowNseOpen`) and the prediction gating state
  machine `updatePredictionSection`.

JavaScript numbers are modelled as rationals (ℚ); `null`/`undefined` as
`Option.none`; JS truthiness of a numeric field as `jsTruthy`.
-/

/- ══════════════ Anchor engine ══════════════ -/

/-- Minute of day (UTC) of an epoch-seconds timestamp, as computed in
`findAnchor1530` by `d.getUTCHours() * 60 + d.getUTCMinutes()`. -/
def minuteOfDay (t : Nat) : Nat :=
  ((t % 86400) / 3600) * 60 + ((t % 3600) / 60)

/-- `|candleMin - 600|`: the minute-of-day distance of sample `i` of the
series to the 10:00 UTC (= 15:30 IST) cutoff, `TARGET_UTC = 10 * 60`. -/
def diffAt (ts : List Nat) (i : Nat) : Nat :=
  Nat.dist (minuteOfDay (ts.getD i 0)) 600

/-- Sample `i` passes the `closes[i] === null || closes[i] === undefined`
skip-check of `findAnchor1530`. -/
def validAt (closes : List (Option ℚ)) (i : Nat) : Bool :=
  (closes.getD i none).isSome

/-- The scan loop of `findAnchor1530`: `i` is one past the next index to
visit (the JS loop runs `i = timestamps.length - 1; i >= 0; i--`), `b` is
`bestIdx` (`none` encodes `-1`) and `m` is `minDiff`. -/
def anchorLoop (ts : List Nat) (closes : List (Option ℚ)) :
    Nat → Option Nat → Nat → Option ℚ
  | 0, some j, _ => closes.getD j none
  | 0, none, _ => none
  | i + 1, b, m =>
    match closes.getD i none with
    | none => anchorLoop ts closes i b m
    | some c =>
      if diffAt ts i ≤ 5 then some c
      else if diffAt ts i < m then anchorLoop ts closes i (some i) (diffAt ts i)
      else anchorLoop ts closes i b m

/-- `findAnchor1530(timestamps, closes)`: find the close nearest the
10:00 UTC cutoff, fast-path within 5 minutes, max window `minDiff = 30`. -/
def findAnchor1530 (ts : List Nat) (closes : List (Option ℚ)) : Option ℚ :=
  anchorLoop ts closes ts.length none 30

lemma validAt_false_of_none {closes : List (Option ℚ)} {i : Nat}
    (h : closes.getD i none = none) : validAt closes i = false := by
  unfold validAt; rw [h]; rfl

lemma validAt_true_of_some {closes : List (Option ℚ)} {i : Nat} {c : ℚ}
    (h : closes.getD i none = some c) : validAt closes i = true := by
  unfold validAt; rw [h]; rfl

lemma anchorLoop_zero_none (ts : List Nat) (closes : List (Option ℚ)) (m : Nat) :
    anchorLoop ts closes 0 none m = none := rfl

lemma anchorLoop_zero_some (ts : List Nat) (closes : List (Option ℚ)) (j m : Nat) :
    anchorLoop ts closes 0 (some j) m = closes.getD j none := rfl

lemma anchorLoop_succ_invalid (ts : List Nat) (closes : List (Option ℚ))
    (i m : Nat) (b : Option Nat) (h : closes.getD i none = none) :
    anchorLoop ts closes (i + 1) b m = anchorLoop ts closes i b m := by
  simp only [anchorLoop, h]

lemma anchorLoop_succ_fast (ts : List Nat) (closes : List (Option ℚ))
    (i m : Nat) (b : Option Nat) (c : ℚ) (h : closes.getD i none = some c)
    (h5 : diffAt ts i ≤ 5) :
    anchorLoop ts closes (i + 1) b m = some c := by
  simp only [anchorLoop, h, if_pos h5]

lemma anchorLoop_succ_upd (ts : List Nat) (closes : List (Option ℚ))
    (i m : Nat) (b : Option Nat) (c : ℚ) (h : closes.getD i none = some c)
    (h5 : ¬ diffAt ts i ≤ 5) (hlt : diffAt ts i < m) :
    anchorLoop ts closes (i + 1) b m =
      anchorLoop ts closes i (some i) (diffAt ts i) := by
  simp only [anchorLoop, h, if_neg h5, if_pos hlt]

lemma anchorLoop_succ_keep (ts : List Nat) (closes : List (Option ℚ))
    (i m : Nat) (b : Option Nat) (c : ℚ) (h : closes.getD i none = some c)
    (h5 : ¬ diffAt ts i ≤ 5) (hge : ¬ diffAt ts i < m) :
    anchorLoop ts closes (i + 1) b m = anchorLoop ts closes i b m := by
  simp only [anchorLoop, h, if_neg h5, if_neg hge]

/-- If some sample below `i` is valid and within the 5-minute fast-path
tolerance, the scan returns the close of the greatest such index, whatever
the accumulated best-so-far state is. -/
lemma anchorLoop_fast_path (ts : List Nat) (closes : List (Option ℚ)) :
    ∀ i (b : Option Nat) (m : Nat),
      (∃ k, k < i ∧ validAt closes k = true ∧ diffAt ts k ≤ 5) →
      ∃ j, j < i ∧ validAt closes j = true ∧ diffAt ts j ≤ 5 ∧
        anchorLoop ts closes i b m = closes.getD j none ∧
        ∀ k, j < k → k < i → validAt closes k = true → 5 < diffAt ts k := by
  intro i
  induction i with
  | zero => intro b m ⟨k, hk, _⟩; omega
  | succ i ih =>
    intro b m ⟨k, hk, hkv, hk5⟩
    cases hc : closes.getD i none with
    | none =>
      have hki : k < i := by
        rcases Nat.lt_succ_iff_lt_or_eq.mp hk with h | h
        · exact h
        · exfalso; subst h; rw [validAt_false_of_none hc] at hkv; cases hkv
      rcases ih b m ⟨k, hki, hkv, hk5⟩ with ⟨j, hj, hjv, hj5, hres, hmax⟩
      refine ⟨j, by omega, hjv, hj5, ?_, ?_⟩
      · rw [anchorLoop_succ_invalid ts closes i m b hc]; exact hres
      · intro k' hk'j hk'i hk'v
        rcases Nat.lt_succ_iff_lt_or_eq.mp hk'i with h | h
        · exact hmax k' hk'j h hk'v
        · exfalso; subst h; rw [validAt_false_of_none hc] at hk'v; cases hk'v
    | some c =>
      by_cases h5 : diffAt ts i ≤ 5
      · refine ⟨i, Nat.lt_succ_self i, validAt_true_of_some hc, h5, ?_, ?_⟩
        · rw [anchorLoop_succ_fast ts closes i m b c hc h5, hc]
        · intro k' hk'j hk'i _; omega
      · have hki : k < i := by
          rcases Nat.lt_succ_iff_lt_or_eq.mp hk with h | h
          · exact h
          · exfalso; subst h; exact h5 hk5
        have step : ∀ b' m', anchorLoop ts closes (i + 1) b m =
            anchorLoop ts closes i b' m' →
            ∃ j, j < i + 1 ∧ validAt closes j = true ∧ diffAt ts j ≤ 5 ∧
              anchorLoop ts closes (i + 1) b m = closes.getD j none ∧
              ∀ k, j < k → k < i + 1 → validAt closes k = true →
                5 < diffAt ts k := by
          intro b' m' heq
          rcases ih b' m' ⟨k, hki, hkv, hk5⟩ with ⟨j, hj, hjv, hj5, hres, hmax⟩
          refine ⟨j, by omega, hjv, hj5, by rw [heq]; exact hres, ?_⟩
          intro k' hk'j hk'i hk'v
          rcases Nat.lt_succ_iff_lt_or_eq.mp hk'i with h | h
          · exact hmax k' hk'j h hk'v
          · subst h; omega
        by_cases hlt : diffAt ts i < m
        · exact step (some i) (diffAt ts i)
            (anchorLoop_succ_upd ts closes i m b c hc h5 hlt)
        · exact step b m (anchorLoop_succ_keep ts closes i m b c hc h5 hlt)

/-- C1 — On a time-ascending series containing a valid sample within the
5-minute tolerance of the 10:00 UTC cutoff, `findAnchor1530` returns the
close of the most recent such within-tolerance sample (its timestamp is
maximal among all within-tolerance samples), never a merely approximate
farther match. -/
theorem findAnchor1530_fast_path_most_recent (ts : List Nat)
    (closes : List (Option ℚ)) (hsort : List.Sorted (· ≤ ·) ts)
    (hex : ∃ i, i < ts.length ∧ validAt closes i = true ∧ diffAt ts i ≤ 5) :
    ∃ j, j < ts.length ∧ validAt closes j = true ∧ diffAt ts j ≤ 5 ∧
      findAnchor1530 ts closes = closes.getD j none ∧
      ∀ k, k < ts.length → validAt closes k = true → diffAt ts k ≤ 5 →
        ts.getD k 0 ≤ ts.getD j 0 := by
  rcases anchorLoop_fast_path ts closes ts.length none 30 hex with
    ⟨j, hj, hjv, hj5, hres, hmax⟩
  refine ⟨j, hj, hjv, hj5, hres, ?_⟩
  intro k hk hkv hk5
  have hkj : k ≤ j := by
    by_contra hgt
    exact absurd hk5 (Nat.not_le_of_lt (hmax k (by omega) hk hkv))
  rcases Nat.lt_or_ge k j with hlt | hge
  · have := List.pairwise_iff_getElem.mp hsort k j (by omega) hj hlt
    rw [List.getD_eq_getElem ts 0 (by omega : k < ts.length),
      List.getD_eq_getElem ts 0 hj]
    exact this
  · have : k = j := by omega
    subst this; exact le_refl _

theorem findAnchor1530_fast_path_witness :
    ∃ j, j < 2 ∧ validAt [some (100 : ℚ), some 200] j = true ∧
      diffAt [36000, 86400] j ≤ 5 ∧
      findAnchor1530 [36000, 86400] [some (100 : ℚ), some 200] =
        [some (100 : ℚ), some 200].getD j none ∧
      ∀ k, k < 2 → validAt [some (100 : ℚ), some 200] k = true →
        diffAt [36000, 86400] k ≤ 5 →
        [36000, 86400].getD k 0 ≤ [36000, 86400].getD j 0 := by
  have h := findAnchor1530_fast_path_most_recent [36000, 86400]
    [some (100 : ℚ), some 200] (by decide)
    ⟨0, by decide⟩
  simpa using h

/-- If every valid sample at an index below `i` has distance at least `m`
from the cutoff, and `m` exceeds the fast-path tolerance, the scan never
records a candidate and falls through to `bestIdx === -1`. -/
lemma anchorLoop_none_of_far (ts : List Nat) (closes : List (Option ℚ)) :
    ∀ i m, 5 < m → (∀ k, k < i → validAt closes k = true → m ≤ diffAt ts k) →
      anchorLoop ts closes i none m = none := by
  intro i
  induction i with
  | zero => intro m _ _; rfl
  | succ i ih =>
    intro m hm hfar
    cases hc : closes.getD i none with
    | none =>
      rw [anchorLoop_succ_invalid ts closes i m none hc]
      exact ih m hm fun k hk hv => hfar k (by omega) hv
    | some c =>
      have hge : m ≤ diffAt ts i :=
        hfar i (Nat.lt_succ_self i) (validAt_true_of_some hc)
      have h5 : ¬ diffAt ts i ≤ 5 := by omega
      rw [anchorLoop_succ_keep ts closes i m none c hc h5 (by omega)]
      exact ih m hm fun k hk hv => hfar k (by omega) hv

/-- C3 — If no valid sample of the series has minute-of-day distance below
the 30-minute maximum window from the 10:00 UTC cutoff, `findAnchor1530`
returns `null`, never the globally nearest but out-of-window sample. -/
theorem findAnchor1530_none_outside_window (ts : List Nat)
    (closes : List (Option ℚ))
    (hfar : ∀ k, k < ts.length → validAt closes k = true → 30 ≤ diffAt ts k) :
    findAnchor1530 ts closes = none :=
  anchorLoop_none_of_far ts closes ts.length 30 (by omega) hfar

theorem findAnchor1530_none_outside_window_witness :
    findAnchor1530 [0, 38220] [some (5 : ℚ), some 7] = none :=
  findAnchor1530_none_outside_window [0, 38220] [some (5 : ℚ), some 7]
    (by decide)

/-- The approximate-match phase of the scan: if no valid sample below `i`
is within the 5-minute fast-path tolerance but some valid sample beats the
current `minDiff` bound `m`, the loop returns the close of the sample with
the globally smallest distance, preferring the largest index (the sample
scanned first) among equally distant ones. -/
lemma anchorLoop_approx_best (ts : List Nat) (closes : List (Option ℚ)) :
    ∀ i (b : Option Nat) (m : Nat),
      (∀ k, k < i → validAt closes k = true → 5 < diffAt ts k) →
      ((∃ k, k < i ∧ validAt closes k = true ∧ diffAt ts k < m) →
        ∃ j, j < i ∧ validAt closes j = true ∧ diffAt ts j < m ∧
          anchorLoop ts closes i b m = closes.getD j none ∧
          (∀ k, k < i → validAt closes k = true → diffAt ts j ≤ diffAt ts k) ∧
          (∀ k, k < i → validAt closes k = true → diffAt ts k = diffAt ts j →
            k ≤ j)) ∧
      ((¬ ∃ k, k < i ∧ validAt closes k = true ∧ diffAt ts k < m) →
        anchorLoop ts closes i b m =
          match b with
          | some j => closes.getD j none
          | none => none) := by
  intro i
  induction i with
  | zero =>
    intro b m _
    refine ⟨fun ⟨k, hk, _⟩ => absurd hk (by omega), fun _ => ?_⟩
    cases b <;> rfl
  | succ i ih =>
    intro b m hnf
    have hnf' : ∀ k, k < i → validAt closes k = true → 5 < diffAt ts k :=
      fun k hk hv => hnf k (by omega) hv
    constructor
    · rintro ⟨k, hk, hkv, hkm⟩
      cases hc : closes.getD i none with
      | none =>
        have hki : k < i := by
          rcases Nat.lt_succ_iff_lt_or_eq.mp hk with h | h
          · exact h
          · exfalso; subst h
            rw [validAt_false_of_none hc] at hkv; cases hkv
        rcases (ih b m hnf').1 ⟨k, hki, hkv, hkm⟩ with
          ⟨j, hj, hjv, hjm, hres, hmin, htie⟩
        refine ⟨j, by omega, hjv, hjm,
          by rw [anchorLoop_succ_invalid ts closes i m b hc]; exact hres,
          ?_, ?_⟩
        · intro k' hk' hk'v
          rcases Nat.lt_succ_iff_lt_or_eq.mp hk' with h | h
          · exact hmin k' h hk'v
          · exfalso; subst h
            rw [validAt_false_of_none hc] at hk'v; cases hk'v
        · intro k' hk' hk'v heq
          rcases Nat.lt_succ_iff_lt_or_eq.mp hk' with h | h
          · exact htie k' h hk'v heq
          · exfalso; subst h
            rw [validAt_false_of_none hc] at hk'v; cases hk'v
      | some c =>
        have hiv : validAt closes i = true := validAt_true_of_some hc
        have h5 : ¬ diffAt ts i ≤ 5 := by
          have := hnf i (Nat.lt_succ_self i) hiv; omega
        by_cases hlt : diffAt ts i < m
        · rw [anchorLoop_succ_upd ts closes i m b c hc h5 hlt]
          by_cases hbet : ∃ k', k' < i ∧ validAt closes k' = true ∧
              diffAt ts k' < diffAt ts i
          · rcases (ih (some i) (diffAt ts i) hnf').1 hbet with
              ⟨j, hj, hjv, hjm, hres, hmin, htie⟩
            refine ⟨j, by omega, hjv, by omega, hres, ?_, ?_⟩
            · intro k' hk' hk'v
              rcases Nat.lt_succ_iff_lt_or_eq.mp hk' with h | h
              · exact hmin k' h hk'v
              · subst h; omega
            · intro k' hk' hk'v heq
              rcases Nat.lt_succ_iff_lt_or_eq.mp hk' with h | h
              · exact htie k' h hk'v heq
              · subst h; omega
          · have hres := (ih (some i) (diffAt ts i) hnf').2 hbet
            refine ⟨i, Nat.lt_succ_self i, hiv, hlt, hres, ?_, ?_⟩
            · intro k' hk' hk'v
              rcases Nat.lt_succ_iff_lt_or_eq.mp hk' with h | h
              · by_contra hgt
                exact hbet ⟨k', h, hk'v, by omega⟩
              · subst h; exact le_refl _
            · intro k' hk' _ _; omega
        · rw [anchorLoop_succ_keep ts closes i m b c hc h5 hlt]
          have hki : k < i := by
            rcases Nat.lt_succ_iff_lt_or_eq.mp hk with h | h
            · exact h
            · exfalso; subst h; omega
          rcases (ih b m hnf').1 ⟨k, hki, hkv, hkm⟩ with
            ⟨j, hj, hjv, hjm, hres, hmin, htie⟩
          refine ⟨j, by omega, hjv, hjm, hres, ?_, ?_⟩
          · intro k' hk' hk'v
            rcases Nat.lt_succ_iff_lt_or_eq.mp hk' with h | h
            · exact hmin k' h hk'v
            · subst h; omega
          · intro k' hk' hk'v heq
            rcases Nat.lt_succ_iff_lt_or_eq.mp hk' with h | h
            · exact htie k' h hk'v heq
            · exfalso; subst h; omega
    · intro hno
      cases hc : closes.getD i none with
      | none =>
        rw [anchorLoop_succ_invalid ts closes i m b hc]
        exact (ih b m hnf').2 fun ⟨k, hk, hkv, hkm⟩ =>
          hno ⟨k, by omega, hkv, hkm⟩
      | some c =>
        have hiv : validAt closes i = true := validAt_true_of_some hc
        have h5 : ¬ diffAt ts i ≤ 5 := by
          have := hnf i (Nat.lt_succ_self i) hiv; omega
        have hge : ¬ diffAt ts i < m := fun hlt =>
          hno ⟨i, Nat.lt_succ_self i, hiv, hlt⟩
        rw [anchorLoop_succ_keep ts closes i m b c hc h5 hge]
        exact (ih b m hnf').2 fun ⟨k, hk, hkv, hkm⟩ =>
          hno ⟨k, by omega, hkv, hkm⟩

/-- C2 counterexample — a two-day series in which the more recent UTC day
(index 1, day `123120 / 86400 = 1`) has a sample within the acceptable
window (distance 12 < 30), yet `findAnchor1530` returns the close of the
older day's sample (index 0, day 0) because its distance (10) is smaller:
the most recent qualifying day is not always preferred. -/
theorem findAnchor1530_picks_closer_older_day :
    findAnchor1530 [36600, 123120] [some (100 : ℚ), some 200] = some 100 ∧
    36600 / 86400 < 123120 / 86400 ∧
    diffAt [36600, 123120] 1 < 30 ∧
    5 < diffAt [36600, 123120] 1 ∧
    diffAt [36600, 123120] 0 < diffAt [36600, 123120] 1 ∧
    some (100 : ℚ) ≠ some (200 : ℚ) := by
  refine ⟨by decide, by decide, by decide, by decide, by decide, by decide⟩

/-- C2 amended — When no valid sample is within the 5-minute fast-path
tolerance of the cutoff, `findAnchor1530` returns the valid in-window
(distance < 30) sample whose minute-of-day distance to the cutoff is
globally smallest across all days, preferring the most recent (largest
index) among equally distant samples; a more recent day's in-window sample
is therefore preferred only when no older sample is strictly closer. -/
theorem findAnchor1530_approx_globally_closest (ts : List Nat)
    (closes : List (Option ℚ))
    (hnf : ∀ k, k < ts.length → validAt closes k = true → 5 < diffAt ts k)
    (hex : ∃ k, k < ts.length ∧ validAt closes k = true ∧ diffAt ts k < 30) :
    ∃ j, j < ts.length ∧ validAt closes j = true ∧ diffAt ts j < 30 ∧
      findAnchor1530 ts closes = closes.getD j none ∧
      (∀ k, k < ts.length → validAt closes k = true →
        diffAt ts j ≤ diffAt ts k) ∧
      (∀ k, k < ts.length → validAt closes k = true →
        diffAt ts k = diffAt ts j → k ≤ j) :=
  (anchorLoop_approx_best ts closes ts.length none 30 hnf).1 hex

theorem findAnchor1530_approx_globally_closest_witness :
    ∃ j, j < 2 ∧ validAt [some (100 : ℚ), some 200] j = true ∧
      diffAt [36600, 123120] j < 30 ∧
      findAnchor1530 [36600, 123120] [some (100 : ℚ), some 200] =
        [some (100 : ℚ), some 200].getD j none ∧
      (∀ k, k < 2 → validAt [some (100 : ℚ), some 200] k = true →
        diffAt [36600, 123120] j ≤ diffAt [36600, 123120] k) ∧
      (∀ k, k < 2 → validAt [some (100 : ℚ), some 200] k = true →
        diffAt [36600, 123120] k = diffAt [36600, 123120] j → k ≤ j) := by
  have h := findAnchor1530_approx_globally_closest [36600, 123120]
    [some (100 : ℚ), some 200] (by decide) ⟨0, by decide⟩
  simpa using h

/- ══════════════ Quote processing ══════════════ -/

/-- The provider fields consulted by `processUSD` / `processBees` /
`processForex` on `raw.meta`; `none` is a `null`/absent field. -/
structure Meta where
  regularMarketPreviousClose : Option ℚ
  previousClose : Option ℚ
  chartPreviousClose : Option ℚ
  regularMarketPrice : Option ℚ
deriving DecidableEq

/-- A chart-provider response: `raw.meta`, `raw.timestamp` and
`raw.indicators.quote[0].close`. -/
structure ChartRaw where
  meta : Meta
  timestamp : List Nat
  closes : List (Option ℚ)

/-- One quote record of the state store `S` (for example `S.xau`):
`{cur, prev, anchor1530}`; quotes without an anchor field hold `none`. -/
structure QuoteState where
  cur : Option ℚ
  prev : Option ℚ
  anchor1530 : Option ℚ
deriving DecidableEq

/-- JS truthiness of a nullable numeric value: `null`/`undefined` and `0`
are falsy. -/
def jsTruthy : Option ℚ → Bool
  | none => false
  | some q => if q = 0 then false else true

/-- `lastValid(arr)`: the last non-null entry of the close series, or
`null`. -/
def lastValid : List (Option ℚ) → Option ℚ
  | [] => none
  | x :: xs =>
    match lastValid xs with
    | some v => some v
    | none => x

/-- The fixed previous-close precedence chain
`meta.regularMarketPreviousClose ?? meta.previousClose ??
meta.chartPreviousClose`: first non-null field wins. -/
def resolvePrev (m : Meta) : Option ℚ :=
  match m.regularMarketPreviousClose with
  | some v => some v
  | none =>
    match m.previousClose with
    | some v => some v
    | none => m.chartPreviousClose

/-- `meta.regularMarketPrice ?? lastValid(closes)`. -/
def resolveCur (m : Meta) (closes : List (Option ℚ)) : Option ℚ :=
  match m.regularMarketPrice with
  | some v => some v
  | none => lastValid closes

/-- `processUSD(sym, raw)` acting on the selected quote record: updates
`cur`/`prev` only when the active source is `'yahoo'`, then installs a
truthy anchor from `findAnchor1530`, falling back to the resolved previous
close only when the stored `anchor1530` is falsy. -/
def processUSD (source : String) (raw : ChartRaw) (obj : QuoteState) :
    QuoteState :=
  let prev := resolvePrev raw.meta
  let cur := resolveCur raw.meta raw.closes
  let obj1 := if source = "yahoo" then { obj with cur := cur, prev := prev }
    else obj
  let anchor := findAnchor1530 raw.timestamp raw.closes
  if jsTruthy anchor then { obj1 with anchor1530 := anchor }
  else if jsTruthy obj1.anchor1530 then obj1
  else { obj1 with anchor1530 := prev }

/-- `processBees(sym, raw)` acting on the selected BeES quote record. -/
def processBees (raw : ChartRaw) (obj : QuoteState) : QuoteState :=
  { obj with
    cur := resolveCur raw.meta raw.closes
    prev := resolvePrev raw.meta }

/-- The regression model records `{ beta, r2 }`. -/
structure PredictionModel where
  beta : ℚ
  r2 : ℚ

/-- `GOLD_MODEL = { beta: 0.88, r2: 0.91 }`. -/
def GOLD_MODEL : PredictionModel := ⟨0.88, 0.91⟩

/-- `SILVER_MODEL = { beta: 0.82, r2: 0.87 }`. -/
def SILVER_MODEL : PredictionModel := ⟨0.82, 0.87⟩

/-- The overnight-move and expected-open numbers computed by `renderGap`:
`none` models the early `return` (nothing rendered) when any of
`usdState.cur`, `usdState.anchor1530`, `beesState.cur` is falsy. -/
structure GapResult where
  overnightPct : ℚ
  expected : ℚ
deriving DecidableEq

/-- The computation of `renderGap(usdState, beesState, ..., model)`:
guard `!usdState.cur || !usdState.anchor1530 || !beesState.cur`, then
`overnightPct = (cur - anchor1530) / anchor1530` and
`expected = beesState.cur * (1 + overnightPct * model.beta)`. -/
def renderGapCompute (usd bees : QuoteState) (model : PredictionModel) :
    Option GapResult :=
  match usd.cur, usd.anchor1530, bees.cur with
  | some c, some a, some b =>
    if c = 0 ∨ a = 0 ∨ b = 0 then none
    else some ⟨(c - a) / a, b * (1 + (c - a) / a * model.beta)⟩
  | _, _, _ => none

/-- The state store `S` as initialised at startup. -/
structure AppState where
  firstLoad : Bool
  source : String
  xau : QuoteState
  xag : QuoteState
  usdinr : QuoteState
  goldBees : QuoteState
  silverBees : QuoteState
  xauM : QuoteState
  xagM : QuoteState

/-- The startup value of `S`: numeric fields `0`, `source: 'tradingview'`;
quotes without an `anchor1530` property hold `none` for it. -/
def S_init : AppState :=
  { firstLoad := true
    source := "tradingview"
    xau := ⟨some 0, some 0, some 0⟩
    xag := ⟨some 0, some 0, some 0⟩
    usdinr := ⟨some 0, some 0, none⟩
    goldBees := ⟨some 0, some 0, none⟩
    silverBees := ⟨some 0, some 0, none⟩
    xauM := ⟨some 0, some 0, none⟩
    xagM := ⟨some 0, some 0, none⟩ }

/-- C4 counterexample — a response whose series yields no anchor
(`findAnchor1530` returns `null`) and resolves previous close to `50`,
applied to a record whose stored `anchor1530` is the truthy value `77`:
`processUSD` keeps the stored anchor instead of setting the resolved
previous close. -/
theorem processUSD_keeps_stored_anchor :
    findAnchor1530 [0] [some (1 : ℚ)] = none ∧
    resolvePrev ⟨some 50, none, none, some 60⟩ = some 50 ∧
    (processUSD "tradingview" ⟨⟨some 50, none, none, some 60⟩, [0], [some 1]⟩
      ⟨some 0, some 0, some 77⟩).anchor1530 = some 77 ∧
    some (77 : ℚ) ≠ some (50 : ℚ) := by
  refine ⟨by decide, rfl, by decide, by decide⟩

/-- C4 amended — When `findAnchor1530` finds no qualifying anchor,
`processUSD` sets the record's `anchor1530` to the resolved previous close
only if the stored `anchor1530` is falsy (zero or null); a truthy stored
anchor is kept unchanged. -/
theorem processUSD_anchor_fallback (source : String) (raw : ChartRaw)
    (obj : QuoteState) (h : findAnchor1530 raw.timestamp raw.closes = none) :
    (processUSD source raw obj).anchor1530 =
      if jsTruthy obj.anchor1530 = true then obj.anchor1530
      else resolvePrev raw.meta := by
  have hanchor : jsTruthy (findAnchor1530 raw.timestamp raw.closes) = false := by
    rw [h]; rfl
  unfold processUSD
  simp only [hanchor, Bool.false_eq_true, if_false]
  by_cases hs : source = "yahoo" <;> simp only [hs, if_true, if_false] <;>
    split <;> rfl

theorem processUSD_anchor_fallback_witness :
    (processUSD "tradingview" ⟨⟨some 50, none, none, some 60⟩, [0], [some 1]⟩
      ⟨some 0, some 0, some 0⟩).anchor1530 =
      if jsTruthy (some (0 : ℚ)) = true then some (0 : ℚ) else some 50 :=
  processUSD_anchor_fallback "tradingview"
    ⟨⟨some 50, none, none, some 60⟩, [0], [some 1]⟩
    ⟨some 0, some 0, some 0⟩ (by decide)

/-- C5 — Whenever the guard passes with a non-zero anchor, positive
international current price, positive BeES current price and positive model
coefficient, `renderGap`'s expected open moves from the local current price
in exactly the direction of the overnight move:
`sign(expected - localCurrent) = sign(overnightPct)`. -/
theorem renderGap_sign_agreement (usd bees : QuoteState)
    (model : PredictionModel) (c a b : ℚ)
    (hc : usd.cur = some c) (ha : usd.anchor1530 = some a)
    (hb : bees.cur = some b) (ha0 : a ≠ 0) (hc0 : 0 < c) (hb0 : 0 < b)
    (hbeta : 0 < model.beta) :
    ∃ r : GapResult, renderGapCompute usd bees model = some r ∧
      r.overnightPct = (c - a) / a ∧
      r.expected = b * (1 + r.overnightPct * model.beta) ∧
      (0 < r.expected - b ↔ 0 < r.overnightPct) ∧
      (r.expected - b = 0 ↔ r.overnightPct = 0) ∧
      (r.expected - b < 0 ↔ r.overnightPct < 0) := by
  have key : b * (1 + (c - a) / a * model.beta) - b =
      b * ((c - a) / a * model.beta) := by ring
  refine ⟨⟨(c - a) / a, b * (1 + (c - a) / a * model.beta)⟩, ?_, rfl, rfl,
    ?_, ?_, ?_⟩
  · simp only [renderGapCompute, hc, ha, hb]
    rw [if_neg]
    push_neg
    exact ⟨ne_of_gt hc0, ha0, ne_of_gt hb0⟩
  · show 0 < b * (1 + (c - a) / a * model.beta) - b ↔ 0 < (c - a) / a
    rw [key]
    constructor
    · intro h
      by_contra hnot
      push_neg at hnot
      have : b * ((c - a) / a * model.beta) ≤ 0 :=
        mul_nonpos_of_nonneg_of_nonpos (le_of_lt hb0)
          (mul_nonpos_of_nonpos_of_nonneg hnot (le_of_lt hbeta))
      linarith
    · intro h
      exact mul_pos hb0 (mul_pos h hbeta)
  · show b * (1 + (c - a) / a * model.beta) - b = 0 ↔ (c - a) / a = 0
    rw [key]
    constructor
    · intro h
      rcases mul_eq_zero.mp h with h' | h'
      · exact absurd h' (ne_of_gt hb0)
      · rcases mul_eq_zero.mp h' with h'' | h''
        · exact h''
        · exact absurd h'' (ne_of_gt hbeta)
    · intro h
      rw [h]
      ring
  · show b * (1 + (c - a) / a * model.beta) - b < 0 ↔ (c - a) / a < 0
    rw [key]
    constructor
    · intro h
      by_contra hnot
      push_neg at hnot
      have : 0 ≤ b * ((c - a) / a * model.beta) :=
        mul_nonneg (le_of_lt hb0) (mul_nonneg hnot (le_of_lt hbeta))
      linarith
    · intro h
      exact mul_neg_of_pos_of_neg hb0 (mul_neg_of_neg_of_pos h hbeta)

theorem renderGap_sign_agreement_witness :
    ∃ r : GapResult,
      renderGapCompute ⟨some 2650, some 2600, some 2640⟩
        ⟨some 100, some 99, none⟩ GOLD_MODEL = some r ∧
      r.overnightPct = (2650 - 2640) / 2640 ∧
      r.expected = 100 * (1 + r.overnightPct * GOLD_MODEL.beta) ∧
      (0 < r.expected - 100 ↔ 0 < r.overnightPct) ∧
      (r.expected - 100 = 0 ↔ r.overnightPct = 0) ∧
      (r.expected - 100 < 0 ↔ r.overnightPct < 0) :=
  renderGap_sign_agreement ⟨some 2650, some 2600, some 2640⟩
    ⟨some 100, some 99, none⟩ GOLD_MODEL 2650 2640 100 rfl rfl rfl
    (by norm_num) (by norm_num) (by norm_num) (by norm_num [GOLD_MODEL])

/-- C6 — `renderGap` computes a prediction exactly when the international
current price, the international anchor and the local BeES current price
are all present and non-zero (truthy); if any of the three is zero, null or
missing it bails out with no prediction output — unavailable, not zero. -/
theorem renderGap_guard (usd bees : QuoteState) (model : PredictionModel) :
    renderGapCompute usd bees model = none ↔
      (jsTruthy usd.cur = false ∨ jsTruthy usd.anchor1530 = false ∨
        jsTruthy bees.cur = false) := by
  rcases hcu : usd.cur with _ | c
  · simp [renderGapCompute, hcu, jsTruthy]
  rcases hau : usd.anchor1530 with _ | a
  · simp [renderGapCompute, hcu, hau, jsTruthy]
  rcases hbu : bees.cur with _ | b
  · simp [renderGapCompute, hcu, hau, hbu, jsTruthy]
  by_cases h1 : c = 0 <;> by_cases h2 : a = 0 <;> by_cases h3 : b = 0 <;>
    simp [renderGapCompute, hcu, hau, hbu, jsTruthy, h1, h2, h3]

/-- C9 — The previous close resolves through the fixed precedence chain
`regularMarketPreviousClose`, then `previousClose`, then
`chartPreviousClose`, first non-null wins; in particular
`{null, 105.2, 104.9}` resolves to `105.2`, and `processBees` stores the
resolved value in the record's `prev`. -/
theorem resolvePrev_precedence :
    (∀ (m : Meta) (x : ℚ), m.regularMarketPreviousClose = some x →
      resolvePrev m = some x) ∧
    (∀ (m : Meta) (x : ℚ), m.regularMarketPreviousClose = none →
      m.previousClose = some x → resolvePrev m = some x) ∧
    (∀ m : Meta, m.regularMarketPreviousClose = none →
      m.previousClose = none → resolvePrev m = m.chartPreviousClose) ∧
    resolvePrev ⟨none, some 105.2, some 104.9, none⟩ = some 105.2 ∧
    ∀ (raw : ChartRaw) (obj : QuoteState),
      (processBees raw obj).prev = resolvePrev raw.meta := by
  refine ⟨fun m x h => by simp [resolvePrev, h],
    fun m x h1 h2 => by simp [resolvePrev, h1, h2],
    fun m h1 h2 => by simp [resolvePrev, h1, h2],
    rfl, fun raw obj => rfl⟩

theorem resolvePrev_precedence_witness :
    resolvePrev ⟨some 3, none, none, none⟩ = some 3 :=
  resolvePrev_precedence.1 ⟨some 3, none, none, none⟩ 3 rfl

/-- C10 — With the startup-default scanner source `'tradingview'` active,
`processUSD` never touches the `cur` and `prev` fields of the quote record
it processes: only `anchor1530` can change, so displayed current and
previous-close values come solely from the scanner data. -/
theorem processUSD_tradingview_frame :
    S_init.source = "tradingview" ∧
    ∀ (raw : ChartRaw) (obj : QuoteState),
      (processUSD S_init.source raw obj).cur = obj.cur ∧
      (processUSD S_init.source raw obj).prev = obj.prev := by
  refine ⟨rfl, fun raw obj => ?_⟩
  show (processUSD "tradingview" raw obj).cur = obj.cur ∧
    (processUSD "tradingview" raw obj).prev = obj.prev
  simp only [processUSD]
  rw [if_neg (by decide : ¬ ("tradingview" : String) = "yahoo")]
  split
  · exact ⟨rfl, rfl⟩
  · split
    · exact ⟨rfl, rfl⟩
    · exact ⟨rfl, rfl⟩

/- ══════════════ NSE calendar authority ══════════════ -/

/-- An IST calendar date, the `(getFullYear, getMonth+1, getDate)` view of
the IST-shifted `Date` objects the calendar code manipulates. -/
structure YMD where
  y : Nat
  m : Nat
  d : Nat
deriving DecidableEq

/-- Gregorian leap-year rule, as implemented by the JS `Date` calendar. -/
def isLeap (y : Nat) : Bool :=
  (y % 4 == 0 && y % 100 != 0) || y % 400 == 0

/-- Days in a Gregorian month. -/
def daysInMonth (y m : Nat) : Nat :=
  if m = 2 then (if isLeap y then 29 else 28)
  else if m = 4 ∨ m = 6 ∨ m = 9 ∨ m = 11 then 30
  else 31

/-- `candidate.setDate(candidate.getDate() + 1)`: the next calendar day. -/
def nextDay (x : YMD) : YMD :=
  if x.d < daysInMonth x.y x.m then ⟨x.y, x.m, x.d + 1⟩
  else if x.m < 12 then ⟨x.y, x.m + 1, 1⟩
  else ⟨x.y + 1, 1, 1⟩

/-- A real calendar date, the only dates a JS `Date` can denote. -/
def ValidYMD (x : YMD) : Prop :=
  1 ≤ x.y ∧ 1 ≤ x.m ∧ x.m ≤ 12 ∧ 1 ≤ x.d ∧ x.d ≤ daysInMonth x.y x.m

instance (x : YMD) : Decidable (ValidYMD x) := by
  unfold ValidYMD; infer_instance

/-- Leap years in `[1, n]`. -/
def leapCount (n : Nat) : Nat := n / 4 - n / 100 + n / 400

/-- Days in the months before month `m` of year `y`. -/
def daysBeforeMonth (y m : Nat) : Nat :=
  (match m with
   | 1 => 0 | 2 => 31 | 3 => 59 | 4 => 90 | 5 => 120 | 6 => 151 | 7 => 181
   | 8 => 212 | 9 => 243 | 10 => 273 | 11 => 304 | _ => 334) +
  (if 3 ≤ m ∧ isLeap y = true then 1 else 0)

/-- Day count of a date from the proleptic-Gregorian epoch 0001-01-01
(that date has `toDays = 0`); mirrors the epoch-day count inside a JS
`Date` value up to a constant offset. -/
def toDays (x : YMD) : Nat :=
  365 * (x.y - 1) + leapCount (x.y - 1) + daysBeforeMonth x.y x.m + (x.d - 1)

/-- `Date.prototype.getDay` of the IST date: 0 = Sunday … 6 = Saturday,
computed from the epoch day count (1970-01-01, `toDays = 719162`, was a
Thursday, day 4). -/
def getDay (x : YMD) : Nat := (toDays x + 1) % 7

lemma daysBeforeMonth_succ (y m : Nat) (h1 : 1 ≤ m) (h11 : m ≤ 11) :
    daysBeforeMonth y (m + 1) = daysBeforeMonth y m + daysInMonth y m := by
  interval_cases m <;>
    cases h : isLeap y <;>
      simp [daysBeforeMonth, daysInMonth, h]

lemma leapCount_succ (y : Nat) (hy : 1 ≤ y) :
    leapCount y = leapCount (y - 1) + (if isLeap y = true then 1 else 0) := by
  unfold leapCount isLeap
  rcases Nat.exists_eq_add_of_le hy with ⟨n, rfl⟩
  simp only [Nat.add_sub_cancel_left]
  split
  · next h =>
    simp only [Bool.or_eq_true, Bool.and_eq_true, beq_iff_eq, bne_iff_ne,
      ne_eq] at h
    omega
  · next h =>
    simp only [Bool.or_eq_true, Bool.and_eq_true, beq_iff_eq, bne_iff_ne,
      ne_eq, not_or, not_and_or, not_not] at h
    omega

lemma toDays_nextDay (x : YMD) (hv : ValidYMD x) :
    toDays (nextDay x) = toDays x + 1 := by
  obtain ⟨hy, hm1, hm12, hd1, hdim⟩ := hv
  unfold nextDay
  split
  · next hlt =>
    unfold toDays
    simp only
    omega
  · next hge =>
    have hd : x.d = daysInMonth x.y x.m := by omega
    split
    · next hm =>
      unfold toDays
      simp only
      rw [daysBeforeMonth_succ x.y x.m hm1 (by omega)]
      omega
    · next hm =>
      have hm' : x.m = 12 := by omega
      unfold toDays
      simp only [Nat.add_sub_cancel]
      rw [leapCount_succ x.y hy]
      have hdbm : daysBeforeMonth x.y 12 =
          334 + (if isLeap x.y = true then 1 else 0) := by
        simp [daysBeforeMonth]
      have hdim12 : daysInMonth x.y 12 = 31 := by simp [daysInMonth]
      rw [hm'] at hd ⊢
      rw [hdbm]
      have hdbm1 : daysBeforeMonth (x.y + 1) 1 = 0 := by
        simp [daysBeforeMonth]
      rw [hdbm1]
      omega

lemma validYMD_nextDay (x : YMD) (hv : ValidYMD x) : ValidYMD (nextDay x) := by
  obtain ⟨hy, hm1, hm12, hd1, hdim⟩ := hv
  have hpos : ∀ y m, 1 ≤ daysInMonth y m := by
    intro y m
    unfold daysInMonth
    split
    · split <;> omega
    · split <;> omega
  unfold nextDay
  split
  · next hlt =>
    exact ⟨hy, hm1, hm12, Nat.succ_le_succ (Nat.zero_le x.d), hlt⟩
  · split
    · next hm =>
      exact ⟨hy, Nat.succ_le_succ (Nat.zero_le x.m), hm, le_refl 1,
        hpos x.y (x.m + 1)⟩
    · exact ⟨Nat.le_succ_of_le hy, le_refl 1, Nat.le_of_sub_eq_zero rfl,
        le_refl 1, hpos (x.y + 1) 1⟩

/-- Iterated `nextDay`. -/
def nthNext : Nat → YMD → YMD
  | 0, x => x
  | n + 1, x => nthNext n (nextDay x)

lemma nthNext_toDays (n : Nat) :
    ∀ x : YMD, ValidYMD x →
      toDays (nthNext n x) = toDays x + n ∧ ValidYMD (nthNext n x) := by
  induction n with
  | zero => intro x hv; exact ⟨rfl, hv⟩
  | succ n ih =>
    intro x hv
    have hnd := validYMD_nextDay x hv
    rcases ih (nextDay x) hnd with ⟨h1, h2⟩
    refine ⟨?_, h2⟩
    show toDays (nthNext n (nextDay x)) = toDays x + (n + 1)
    rw [h1, toDays_nextDay x hv]
    omega

/-- The `NSE_HOLIDAYS` date set (2025 + 2026) of the source, as dates
(the `'YYYY-MM-DD'` strings are in bijection with the dates they denote). -/
def NSE_HOLIDAYS : List YMD :=
  [⟨2025,2,26⟩, ⟨2025,3,14⟩, ⟨2025,3,31⟩, ⟨2025,4,10⟩, ⟨2025,4,14⟩,
   ⟨2025,4,18⟩, ⟨2025,5,1⟩, ⟨2025,8,15⟩, ⟨2025,8,27⟩, ⟨2025,10,2⟩,
   ⟨2025,10,21⟩, ⟨2025,10,22⟩, ⟨2025,11,5⟩, ⟨2025,12,25⟩,
   ⟨2026,1,26⟩, ⟨2026,3,3⟩, ⟨2026,3,26⟩, ⟨2026,3,31⟩, ⟨2026,4,3⟩,
   ⟨2026,4,14⟩, ⟨2026,5,1⟩, ⟨2026,5,28⟩, ⟨2026,6,26⟩, ⟨2026,9,14⟩,
   ⟨2026,10,2⟩, ⟨2026,10,20⟩, ⟨2026,11,9⟩, ⟨2026,11,24⟩, ⟨2026,12,25⟩]

/-- `isNseHoliday(istDate)`: membership of the date in `NSE_HOLIDAYS`. -/
def isNseHoliday (x : YMD) : Bool := decide (x ∈ NSE_HOLIDAYS)

/-- The day counts of the holiday table. -/
def nseHolidayDays : List Nat := NSE_HOLIDAYS.map toDays

/-- The per-candidate check of the `getNextNseDay` loop:
`dow >= 1 && dow <= 5 && !isNseHoliday(candidate)`. -/
def nseDayOk (x : YMD) : Bool :=
  decide (1 ≤ getDay x) && decide (getDay x ≤ 5) && !(isNseHoliday x)

/-- The bounded forward walk of `getNextNseDay`
(`for (let i = 0; i < 14; i++) ...`), returning the unchecked candidate
when the fuel runs out. -/
def nextNseLoop : Nat → YMD → YMD
  | 0, c => c
  | n + 1, c => if nseDayOk c then c else nextNseLoop n (nextDay c)

/-- `getNextNseDay()` for the IST date `today`: starts from tomorrow and
walks forward to the next NSE trading day. -/
def getNextNseDay (today : YMD) : YMD := nextNseLoop 14 (nextDay today)

/-- `isTomorrowNseOpen()`: the next NSE day equals calendar-tomorrow. -/
def isTomorrowNseOpen (today : YMD) : Bool :=
  getNextNseDay today == nextDay today

set_option maxRecDepth 10000 in
lemma nseHolidayDays_bounds :
    ∀ v ∈ nseHolidayDays, 739307 ≤ v ∧ v ≤ 739974 := by decide

/-- Qualifying-day checker on raw day numbers, used to discharge the
mid-range of the holiday table by computation. -/
def hasQual (N : Nat) : Bool :=
  (List.range 14).any fun t =>
    decide (1 ≤ (N + t + 2) % 7 ∧ (N + t + 2) % 7 ≤ 5 ∧
      ¬ (N + t + 1) ∈ nseHolidayDays)

set_option maxRecDepth 100000 in
lemma hasQual_mid : ∀ i, i < 682 → hasQual (739293 + i) = true := by decide

/-- Every day number has, within the next 14 days, a weekday that is not a
holiday-table day: weekdays repeat with period 7 and the bundled table is
never dense enough to cover them all. -/
lemma existsGoodDay (N : Nat) :
    ∃ j, 1 ≤ j ∧ j ≤ 14 ∧ 1 ≤ (N + j + 1) % 7 ∧ (N + j + 1) % 7 ≤ 5 ∧
      ¬ (N + j) ∈ nseHolidayDays := by
  by_cases hmid : 739293 ≤ N ∧ N ≤ 739974
  · have h := hasQual_mid (N - 739293) (by omega)
    have hN : 739293 + (N - 739293) = N := by omega
    rw [hN] at h
    unfold hasQual at h
    rw [List.any_eq_true] at h
    rcases h with ⟨t, ht, hpred⟩
    rw [List.mem_range] at ht
    have hp := of_decide_eq_true hpred
    refine ⟨t + 1, by omega, by omega, ?_, ?_, ?_⟩
    · have e : N + (t + 1) + 1 = N + t + 2 := by omega
      rw [e]; exact hp.1
    · have e : N + (t + 1) + 1 = N + t + 2 := by omega
      rw [e]; exact hp.2.1
    · have e : N + (t + 1) = N + t + 1 := by omega
      rw [e]; exact hp.2.2
  · have hout : ∀ j, 1 ≤ j → j ≤ 3 → ¬ (N + j) ∈ nseHolidayDays := by
      intro j h1 h3 hmem
      have hb := nseHolidayDays_bounds (N + j) hmem
      omega
    by_cases h0 : (N + 2) % 7 = 0
    · exact ⟨2, by omega, by omega, by omega, by omega,
        hout 2 (by omega) (by omega)⟩
    · by_cases h6 : (N + 2) % 7 = 6
      · exact ⟨3, by omega, by omega, by omega, by omega,
          hout 3 (by omega) (by omega)⟩
      · exact ⟨1, by omega, by omega, by omega, by omega,
          hout 1 (by omega) (by omega)⟩

/-- Lifted to dates: every valid date has a qualifying NSE trading day
among its next 14 successors. -/
lemma existsQualifyingDay (x : YMD) (hv : ValidYMD x) :
    ∃ j, 1 ≤ j ∧ j ≤ 14 ∧ nseDayOk (nthNext j x) = true := by
  rcases existsGoodDay (toDays x) with ⟨j, hj1, hj14, hd1, hd5, hmem⟩
  refine ⟨j, hj1, hj14, ?_⟩
  have hnd := nthNext_toDays j x hv
  have hgd : getDay (nthNext j x) = (toDays x + j + 1) % 7 := by
    unfold getDay; rw [hnd.1]
  have hhol : isNseHoliday (nthNext j x) = false := by
    cases hcase : isNseHoliday (nthNext j x) with
    | false => rfl
    | true =>
      exfalso
      unfold isNseHoliday at hcase
      have hm := of_decide_eq_true hcase
      have hmem' : toDays (nthNext j x) ∈ nseHolidayDays :=
        List.mem_map_of_mem toDays hm
      rw [hnd.1] at hmem'
      exact hmem hmem'
  unfold nseDayOk
  rw [hgd, hhol]
  simp only [Bool.not_false, Bool.and_true, Bool.and_eq_true,
    decide_eq_true_eq]
  exact ⟨hd1, hd5⟩

/-- The bounded walk returns the first qualifying candidate when one
exists within the fuel. -/
lemma nextNseLoop_first :
    ∀ (n : Nat) (c : YMD),
      (∃ j, j < n ∧ nseDayOk (nthNext j c) = true) →
      ∃ k, k < n ∧ nextNseLoop n c = nthNext k c ∧
        nseDayOk (nthNext k c) = true ∧
        ∀ j, j < k → nseDayOk (nthNext j c) = false := by
  intro n
  induction n with
  | zero => intro c ⟨j, hj, _⟩; omega
  | succ n ih =>
    intro c ⟨j, hj, hjok⟩
    cases hok : nseDayOk c with
    | true =>
      refine ⟨0, by omega, ?_, hok, fun j hj => by omega⟩
      show (if nseDayOk c = true then c else nextNseLoop n (nextDay c)) = c
      rw [if_pos hok]
    | false =>
      have hshift : ∃ j', j' < n ∧ nseDayOk (nthNext j' (nextDay c)) = true := by
        rcases j with _ | j''
        · rw [show nthNext 0 c = c from rfl, hok] at hjok; cases hjok
        · exact ⟨j'', by omega, hjok⟩
      rcases ih (nextDay c) hshift with ⟨k', hk', hres, hkok, hmin⟩
      refine ⟨k' + 1, by omega, ?_, hkok, ?_⟩
      · show (if nseDayOk c = true then c else nextNseLoop n (nextDay c)) =
          nthNext k' (nextDay c)
        rw [if_neg (by rw [hok]; exact Bool.false_ne_true)]
        exact hres
      · intro j0 hj0
        rcases j0 with _ | j1
        · exact hok
        · exact hmin j1 (by omega)

/-- C7 — `getNextNseDay` never returns the input date; on every valid IST
date it returns the first strictly-future calendar day that is a weekday
and not in the NSE holiday table (reached within its 14-step walk); in
particular on Friday 2026-01-23 — followed by Saturday, Sunday and the
Monday 2026-01-26 Republic-Day holiday — it returns Tuesday 2026-01-27. -/
theorem getNextNseDay_first_trading_day (today : YMD) (hv : ValidYMD today) :
    getNextNseDay today ≠ today ∧
    (∃ k, 1 ≤ k ∧ k ≤ 14 ∧ getNextNseDay today = nthNext k today ∧
      nseDayOk (nthNext k today) = true ∧
      ∀ j, 1 ≤ j → j < k → nseDayOk (nthNext j today) = false) ∧
    getDay ⟨2026, 1, 23⟩ = 5 ∧ getDay ⟨2026, 1, 24⟩ = 6 ∧
    getDay ⟨2026, 1, 25⟩ = 0 ∧ isNseHoliday ⟨2026, 1, 26⟩ = true ∧
    getDay ⟨2026, 1, 26⟩ = 1 ∧
    getNextNseDay ⟨2026, 1, 23⟩ = ⟨2026, 1, 27⟩ := by
  rcases existsQualifyingDay today hv with ⟨j, hj1, hj14, hok⟩
  have hshift : ∃ j', j' < 14 ∧ nseDayOk (nthNext j' (nextDay today)) = true := by
    rcases j with _ | j''
    · omega
    · exact ⟨j'', by omega, hok⟩
  rcases nextNseLoop_first 14 (nextDay today) hshift with
    ⟨k', hk', hres, hkok, hmin⟩
  have hmain : ∃ k, 1 ≤ k ∧ k ≤ 14 ∧ getNextNseDay today = nthNext k today ∧
      nseDayOk (nthNext k today) = true ∧
      ∀ j, 1 ≤ j → j < k → nseDayOk (nthNext j today) = false := by
    refine ⟨k' + 1, by omega, by omega, hres, hkok, ?_⟩
    intro j0 h1 hlt
    rcases j0 with _ | j1
    · omega
    · exact hmin j1 (by omega)
  refine ⟨?_, hmain, by decide, by decide, by decide, by decide, by decide,
    by decide⟩
  rcases hmain with ⟨k, hk1, _, heq, _, _⟩
  intro hcontra
  have h1 := (nthNext_toDays k today hv).1
  rw [← heq, hcontra] at h1
  omega

theorem getNextNseDay_first_trading_day_witness :
    ValidYMD ⟨2026, 1, 23⟩ ∧ getNextNseDay ⟨2026, 1, 23⟩ ≠ ⟨2026, 1, 23⟩ :=
  ⟨by decide,
    (getNextNseDay_first_trading_day ⟨2026, 1, 23⟩ (by decide)).1⟩

/- ══════════════ Prediction gating state machine ══════════════ -/

/-- The gating states of the prediction section. -/
inductive PredState where
  | lockedNonTradingDay
  | lockedMarketOpen
  | availableNoNextSession
  | available
deriving DecidableEq

/-- The observable outcome of one `updatePredictionSection` tick: the
gating state, whether the banner is displayed (`display: flex`) and
whether the prediction cards are displayed (`display: grid`). -/
structure PredictionView where
  state : PredState
  bannerShown : Bool
  cardsShown : Bool
deriving DecidableEq

/-- `updatePredictionSection(ist)` as a function of the IST date and the
IST minute-of-day (`ist.getHours() * 60 + ist.getMinutes()`):
`afterCloseOnWeekday = isWeekday && !isHoliday && min >= 930`; when false
the section is locked (banner shown, cards hidden), with the
not-a-trading-day banner if `!isWeekday || isHoliday`; otherwise the
banner and expected prices depend on `isTomorrowNseOpen()`. -/
def updatePredictionSection (ist : YMD) (minOfDay : Nat) : PredictionView :=
  let dow := getDay ist
  let isWeekday := decide (1 ≤ dow) && decide (dow ≤ 5)
  let isHoliday := isNseHoliday ist
  let afterCloseOnWeekday := isWeekday && !isHoliday && decide (930 ≤ minOfDay)
  if !afterCloseOnWeekday then
    if !isWeekday || isHoliday then ⟨.lockedNonTradingDay, true, false⟩
    else ⟨.lockedMarketOpen, true, false⟩
  else if !(isTomorrowNseOpen ist) then ⟨.availableNoNextSession, true, true⟩
  else ⟨.available, false, true⟩

/-- C8 — On every instant whose IST day-of-week is Saturday or Sunday, and
at every minute of the day, the prediction gating is Locked-NonTradingDay:
the not-a-trading-day banner is shown and the prediction cards are hidden,
regardless of time-of-day. -/
theorem updatePredictionSection_weekend_locked (ist : YMD)
    (h : getDay ist = 0 ∨ getDay ist = 6) :
    ∀ minOfDay : Nat, updatePredictionSection ist minOfDay =
      ⟨.lockedNonTradingDay, true, false⟩ := by
  intro minOfDay
  have hw : (decide (1 ≤ getDay ist) && decide (getDay ist ≤ 5)) = false := by
    rcases h with h | h <;> rw [h] <;> rfl
  simp only [updatePredictionSection]
  rw [hw]
  simp

theorem updatePredictionSection_weekend_locked_witness :
    updatePredictionSection ⟨2026, 1, 24⟩ 555 =
      ⟨.lockedNonTradingDay, true, false⟩ :=
  updatePredictionSection_weekend_locked ⟨2026, 1, 24⟩ (Or.inr (by decide)) 555
